import Mathlib

/-!
Verification development for the cyberpunk-rs audio-transformation gateway.

The Rust sources are shallowly embedded: Rust `String`/`&str` values are
`List Char` (named `RStr`), byte buffers (`Vec<u8>`, file contents) are
`List Nat`, `f64` fields are modelled as exact rationals (`Rat`), and `i32`
fields as `Int` with explicit range checks where the source parses them.
External crates (`sha1`, `form_urlencoded`, `infer`) are abstracted as
function parameters; everything written in the repository itself is
transcribed definition by definition.
-/

namespace Cyberpunk

/-- Rust strings are modelled as lists of characters. -/
abbrev RStr := List Char

/-- Convenience: turn a Lean string literal into the model representation. -/
def str (s : String) : RStr := s.data

/-- Rust `str::starts_with` / prefix test on the model strings. -/
def isPfxOf : RStr → RStr → Bool
  | [], _ => true
  | _ :: _, [] => false
  | a :: as, b :: bs => decide (a = b) && isPfxOf as bs

/-- Rust `str::strip_prefix`: remove `pat` from the front when present. -/
def stripPfx (pat s : RStr) : Option RStr :=
  if isPfxOf pat s then some (s.drop pat.length) else none

/-- Rust `str::split(sep)` collected into a vector: splitting never yields an
empty list (an empty input gives one empty piece), and separators are kept out
of the pieces. -/
def splitOnChar (sep : Char) : RStr → List RStr
  | [] => [[]]
  | c :: rest =>
    match splitOnChar sep rest with
    | [] => [[]]
    | cur :: parts =>
      if c = sep then [] :: cur :: parts else (c :: cur) :: parts

theorem splitOnChar_ne_nil (sep : Char) (l : RStr) : splitOnChar sep l ≠ [] := by
  cases l with
  | nil => simp [splitOnChar]
  | cons c rest =>
    simp only [splitOnChar]
    cases h : splitOnChar sep rest with
    | nil => simp
    | cons cur parts =>
      by_cases hc : c = sep <;> simp [hc]

theorem mem_splitOnChar_not_mem (sep : Char) (l : RStr) :
    ∀ s ∈ splitOnChar sep l, sep ∉ s := by
  induction l with
  | nil => intro s hs; simp [splitOnChar] at hs; simp [hs]
  | cons c rest ih =>
    intro s hs
    simp only [splitOnChar] at hs
    cases h : splitOnChar sep rest with
    | nil => exact absurd h (splitOnChar_ne_nil sep rest)
    | cons cur parts =>
      rw [h] at hs
      have ihcur : sep ∉ cur := ih cur (by rw [h]; exact List.mem_cons_self _ _)
      have ihparts : ∀ t ∈ parts, sep ∉ t := by
        intro t ht; exact ih t (by rw [h]; exact List.mem_cons_of_mem _ ht)
      by_cases hc : c = sep
      · simp only [hc, if_pos rfl] at hs
        rcases List.mem_cons.mp hs with rfl | hs2
        · simp
        · rcases List.mem_cons.mp hs2 with rfl | hmem
          · exact ihcur
          · exact ihparts _ hmem
      · simp only [if_neg hc] at hs
        rcases List.mem_cons.mp hs with rfl | hmem
        · intro hcon
          rcases List.mem_cons.mp hcon with hceq | hcur
          · exact hc hceq.symm
          · exact ihcur hcur
        · exact ihparts _ hmem

/-- Decimal digits (as characters) of a natural number, mirroring Rust's
integer `Display`. -/
def natChars (n : Nat) : RStr := (Nat.repr n).data

/-- Rust `i32` `Display`. -/
def intChars (i : Int) : RStr :=
  if i < 0 then '-' :: natChars i.natAbs else natChars i.natAbs

/-- Rust `bool` `Display`. -/
def boolChars (b : Bool) : RStr := if b then str "true" else str "false"

/-- Is `c` an ASCII decimal digit? -/
def isDigitChar (c : Char) : Bool := decide ('0' ≤ c) && decide (c ≤ '9')

/-- Numeric value of a digit character. -/
def digitVal (c : Char) : Nat := c.toNat - 48

/-- Value of a digit string, most significant first. -/
def digitsVal (l : RStr) : Nat := l.foldl (fun a c => a * 10 + digitVal c) 0

/-- Rust `str::parse::<usize>()`: optional `+` sign, one or more ASCII digits,
64-bit range check. -/
def parseUsizeChars (s : RStr) : Option Nat :=
  let t := match s with
           | '+' :: rest => rest
           | _ => s
  if t ≠ [] ∧ t.all isDigitChar ∧ digitsVal t < 2 ^ 64 then some (digitsVal t)
  else none

/-- Rust `str::parse::<i32>()`: optional sign, digits, 32-bit range check. -/
def parseI32Chars (s : RStr) : Option Int :=
  match s with
  | '-' :: rest =>
    if rest ≠ [] ∧ rest.all isDigitChar ∧ digitsVal rest ≤ 2 ^ 31 then
      some (-(digitsVal rest : Int))
    else none
  | '+' :: rest =>
    if rest ≠ [] ∧ rest.all isDigitChar ∧ digitsVal rest < 2 ^ 31 then
      some (digitsVal rest : Int)
    else none
  | t =>
    if t ≠ [] ∧ t.all isDigitChar ∧ digitsVal t < 2 ^ 31 then
      some (digitsVal t : Int)
    else none

/-- Rust `str::parse::<f64>()`, modelled over exact rationals: optional sign,
integer digits, optional fractional digits, optional decimal exponent.
Infinity/NaN literals and rounding to binary are outside the rational model
and are treated as parse failures / exact values respectively. -/
def parseF64Chars (s : RStr) : Option Rat :=
  let (sign, t) := match s with
                   | '-' :: rest => ((-1 : Rat), rest)
                   | '+' :: rest => ((1 : Rat), rest)
                   | t => ((1 : Rat), t)
  let intPart := t.takeWhile isDigitChar
  let t2 := t.drop intPart.length
  let (fracPart, t3) := match t2 with
                        | '.' :: rest =>
                          (rest.takeWhile isDigitChar,
                           rest.drop (rest.takeWhile isDigitChar).length)
                        | _ => ([], t2)
  let (expOk, expVal, t4) : Bool × Int × RStr :=
    match t3 with
    | 'e' :: rest | 'E' :: rest =>
      let (esign, r2) : Int × RStr := match rest with
                                      | '-' :: r => (-1, r)
                                      | '+' :: r => (1, r)
                                      | r => (1, r)
      let ed := r2.takeWhile isDigitChar
      if ed = [] then (false, 0, t3)
      else (true, esign * (digitsVal ed : Int), r2.drop ed.length)
    | _ => (true, 0, t3)
  if intPart = [] ∧ fracPart = [] then none
  else if ¬ expOk then none
  else if t4 ≠ [] then none
  else
    let mant : Rat := (digitsVal intPart : Rat) +
      (digitsVal fracPart : Rat) / ((10 : Rat) ^ fracPart.length)
    some (sign * mant * ((10 : Rat) ^ expVal))

/-- ASCII lowercasing of one character; Rust's `str::to_lowercase` is
Unicode-aware, but every pattern it is matched against below is ASCII, and a
non-ASCII character can never become equal to an ASCII pattern, so the ASCII
restriction is observationally faithful here. -/
def charLower (c : Char) : Char :=
  if 'A' ≤ c ∧ c ≤ 'Z' then Char.ofNat (c.toNat + 32) else c

def toLowerStr (s : RStr) : RStr := s.map charLower

/-- src/blob.rs: the closed audio-format variant. -/
inductive AudioFormat
  | mp3 | wav | flac | ogg | m4a | opus | unknown
deriving DecidableEq, Repr

/-- src/blob.rs `AudioFormat::extension`. -/
def AudioFormat.extension : AudioFormat → RStr
  | .mp3 => str "mp3"
  | .wav => str "wav"
  | .flac => str "flac"
  | .ogg => str "ogg"
  | .m4a => str "m4a"
  | .opus => str "opus"
  | .unknown => []

/-- src/blob.rs `impl Display for AudioFormat` (writes the extension). -/
def AudioFormat.display (f : AudioFormat) : RStr := f.extension

/-- src/blob.rs `impl FromStr for AudioFormat`: lowercase, then exact match;
the empty string parses to `Unknown`, anything unrecognized is an error. -/
def AudioFormat.fromStr (s : RStr) : Except RStr AudioFormat :=
  let t := toLowerStr s
  if t = str "mp3" then .ok .mp3
  else if t = str "wav" then .ok .wav
  else if t = str "flac" then .ok .flac
  else if t = str "ogg" then .ok .ogg
  else if t = str "m4a" then .ok .m4a
  else if t = str "opus" then .ok .opus
  else if t = [] then .ok .unknown
  else .error (str "Unknown audio format: " ++ s)

/-- src/cyberpunkpath/params.rs: the canonical transformation record.
`f64` fields are modelled as exact rationals, `i32` fields as integers. -/
structure Params where
  key : RStr := []
  format : Option AudioFormat := none
  codec : Option RStr := none
  sample_rate : Option Int := none
  channels : Option Int := none
  bit_rate : Option Int := none
  bit_depth : Option Int := none
  quality : Option Rat := none
  compression_level : Option Int := none
  start_time : Option Rat := none
  duration : Option Rat := none
  speed : Option Rat := none
  reverse : Option Bool := none
  volume : Option Rat := none
  normalize : Option Bool := none
  normalize_level : Option Rat := none
  lowpass : Option Rat := none
  highpass : Option Rat := none
  bandpass : Option RStr := none
  bass : Option Rat := none
  treble : Option Rat := none
  echo : Option RStr := none
  chorus : Option RStr := none
  flanger : Option RStr := none
  phaser : Option RStr := none
  tremolo : Option RStr := none
  compressor : Option RStr := none
  noise_reduction : Option RStr := none
  fade_in : Option Rat := none
  fade_out : Option Rat := none
  cross_fade : Option Rat := none
  custom_filters : Option (List RStr) := none
  custom_options : Option (List RStr) := none
  tags : Option (List (RStr × RStr)) := none
deriving DecidableEq

/-- Rust `str::trim_start_matches(pat)`: repeatedly strip the pattern. -/
def trimStartMatches (pat s : RStr) : RStr :=
  if h : pat ≠ [] ∧ isPfxOf pat s = true ∧ s ≠ [] then
    trimStartMatches pat (s.drop pat.length)
  else s
termination_by s.length
decreasing_by
  rcases h with ⟨hp, _, hs⟩
  have : 0 < pat.length := List.length_pos.mpr hp
  have : 0 < s.length := List.length_pos.mpr hs
  simp only [List.length_drop]
  omega

/-- Model of `HashMap::insert` on an association list with unique keys: replace the
value if the key is present, append otherwise. -/
def insertAssoc (m : List (RStr × RStr)) (k v : RStr) : List (RStr × RStr) :=
  if m.any (fun e => decide (e.1 = k)) then
    m.map (fun e => if e.1 = k then (k, v) else e)
  else m ++ [(k, v)]

/-- One iteration of the query loop in `Params::from_path`
(src/cyberpunkpath/params.rs lines 208-262). -/
def applyParam (p : Params) (k v : RStr) : Params :=
  if k = str "format" then
    { p with format := some (((AudioFormat.fromStr v).toOption).getD .mp3) }
  else if k = str "codec" then { p with codec := some v }
  else if k = str "sample_rate" then { p with sample_rate := parseI32Chars v }
  else if k = str "channels" then { p with channels := parseI32Chars v }
  else if k = str "bit_rate" then { p with bit_rate := parseI32Chars v }
  else if k = str "bit_depth" then { p with bit_depth := parseI32Chars v }
  else if k = str "quality" then { p with quality := parseF64Chars v }
  else if k = str "compression_level" then
    { p with compression_level := parseI32Chars v }
  else if k = str "start_time" then { p with start_time := parseF64Chars v }
  else if k = str "duration" then { p with duration := parseF64Chars v }
  else if k = str "speed" then { p with speed := parseF64Chars v }
  else if k = str "reverse" then
    { p with reverse := some (decide (v = str "true") || decide (v = str "1")) }
  else if k = str "volume" then { p with volume := parseF64Chars v }
  else if k = str "normalize" then
    { p with normalize := some (decide (v = str "true") || decide (v = str "1")) }
  else if k = str "normalize_level" then
    { p with normalize_level := parseF64Chars v }
  else if k = str "lowpass" then { p with lowpass := parseF64Chars v }
  else if k = str "highpass" then { p with highpass := parseF64Chars v }
  else if k = str "bandpass" then { p with bandpass := some v }
  else if k = str "bass" then { p with bass := parseF64Chars v }
  else if k = str "treble" then { p with treble := parseF64Chars v }
  else if k = str "echo" then { p with echo := some v }
  else if k = str "chorus" then { p with chorus := some v }
  else if k = str "flanger" then { p with flanger := some v }
  else if k = str "phaser" then { p with phaser := some v }
  else if k = str "tremolo" then { p with tremolo := some v }
  else if k = str "compressor" then { p with compressor := some v }
  else if k = str "noise_reduction" then { p with noise_reduction := some v }
  else if k = str "fade_in" then { p with fade_in := parseF64Chars v }
  else if k = str "fade_out" then { p with fade_out := parseF64Chars v }
  else if k = str "cross_fade" then { p with cross_fade := parseF64Chars v }
  else if isPfxOf (str "tag_") k then
    { p with tags := some (insertAssoc (p.tags.getD []) (trimStartMatches (str "tag_") k) v) }
  else if isPfxOf (str "filter_") k then
    { p with custom_filters := some ((p.custom_filters.getD []) ++ [v]) }
  else if isPfxOf (str "option_") k then
    { p with custom_options := some ((p.custom_options.getD []) ++ [v]) }
  else p

/-- src/cyberpunkpath/params.rs `Params::from_path`: the key is the last
`/`-segment of the path; then every query pair is applied in iteration order
(the source iterates a `HashMap`, so the order is an input of the model). -/
def Params.from_path (path : RStr) (query : List (RStr × RStr)) :
    Except RStr Params :=
  match (splitOnChar '/' path).getLast? with
  | none => .error (str "Invalid audio path")
  | some k => .ok (query.foldl (fun p kv => applyParam p kv.1 kv.2) { key := k })

/-- src/cyberpunkpath/params.rs `impl FromStr for Params`. The query-string
decoder (`form_urlencoded::parse`, an external crate) is abstracted as a
parameter turning the raw query text into key/value pairs. -/
def Params.from_str (decodeQuery : RStr → List (RStr × RStr)) (s : RStr) :
    Except RStr Params :=
  let parts := splitOnChar '?' s
  let path := (parts.head?.getD []).dropWhile (fun c => decide (c = '/'))
  let comps := splitOnChar '/' path
  let audio := comps.getLast?.getD []
  if parts.length ≤ 1 then Params.from_path audio []
  else Params.from_path audio (decodeQuery ((parts.drop 1).head?.getD []))

/-- Smallest exponent `k` with `den ∣ 10^k`, if one exists below the bound
(it does whenever `den` factors into 2s and 5s). -/
def pow10Exp (den : Nat) : Option Nat :=
  (List.range (den + 1)).find? (fun k => decide (10 ^ k % den = 0))

/-- Left-pad a digit string with zeros to the given width. -/
def padZeros (width : Nat) (l : RStr) : RStr :=
  List.replicate (width - l.length) '0' ++ l

/-- Rust `f64` `Display` (`{}`), modelled on exact rationals: the shortest
round-tripping decimal of an `f64` that was entered as a short terminating
decimal is that decimal itself, so the model prints the exact decimal
expansion when the denominator divides a power of ten and falls back to a
17-digit fixed-point form otherwise. -/
def ratDisplay (q : Rat) : RStr :=
  let sign : RStr := if q < 0 then str "-" else []
  let num := q.num.natAbs
  let den := q.den
  match pow10Exp den with
  | some k =>
    let scaled := num * 10 ^ k / den
    if k = 0 then sign ++ natChars scaled
    else sign ++ natChars (scaled / 10 ^ k) ++ str "." ++
      padZeros k (natChars (scaled % 10 ^ k))
  | none =>
    let scaled := num * 10 ^ 17 / den
    sign ++ natChars (scaled / 10 ^ 17) ++ str "." ++
      padZeros 17 (natChars (scaled % 10 ^ 17))

/-- Rust `format!` with fixed precision (`{:.1}`, `{:.2}`, `{:.3}`) on `f64`,
modelled as round-half-to-even of the exact rational at `prec` decimals. -/
def fmtFixed (prec : Nat) (q : Rat) : RStr :=
  let sign : RStr := if q < 0 then str "-" else []
  let scaled : Rat := |q| * (10 : Rat) ^ prec
  let fl : Int := ⌊scaled⌋
  let frac : Rat := scaled - (fl : Rat)
  let n : Int :=
    if frac < 1 / 2 then fl
    else if 1 / 2 < frac then fl + 1
    else if fl % 2 = 0 then fl else fl + 1
  let m := n.natAbs
  if prec = 0 then sign ++ natChars m
  else sign ++ natChars (m / 10 ^ prec) ++ str "." ++
    padZeros prec (natChars (m % 10 ^ prec))

/-- Uppercase hex digit. -/
def hexUpper (n : Nat) : Char :=
  if n < 10 then Char.ofNat (48 + n) else Char.ofNat (55 + n)

/-- Lowercase hex digit. -/
def hexLower (n : Nat) : Char :=
  if n < 10 then Char.ofNat (48 + n) else Char.ofNat (87 + n)

/-- UTF-8 encoding of a single Unicode codepoint. -/
def utf8EncodeChar (c : Nat) : List Nat :=
  if c < 0x80 then [c]
  else if c < 0x800 then [0xC0 + c / 0x40, 0x80 + c % 0x40]
  else if c < 0x10000 then
    [0xE0 + c / 0x1000, 0x80 + (c / 0x40) % 0x40, 0x80 + c % 0x40]
  else
    [0xF0 + c / 0x40000, 0x80 + (c / 0x1000) % 0x40,
     0x80 + (c / 0x40) % 0x40, 0x80 + c % 0x40]

/-- The byte set kept verbatim by the `urlencoding` crate:
ASCII alphanumerics and `- . _ ~`. -/
def urlKeepByte (b : Nat) : Bool :=
  (48 ≤ b && b ≤ 57) || (65 ≤ b && b ≤ 90) || (97 ≤ b && b ≤ 122) ||
  b == 45 || b == 46 || b == 95 || b == 126

/-- Model of `urlencoding::encode` (external crate used by `impl Display for Params`):
percent-escape every UTF-8 byte outside the kept set, uppercase hex. -/
def urlencode (s : RStr) : RStr :=
  (s.flatMap (fun c => utf8EncodeChar c.toNat)).flatMap (fun b =>
    if urlKeepByte b then [Char.ofNat b]
    else ['%', hexUpper (b / 16), hexUpper (b % 16)])

/-- Entry of `to_query` for one optional field. -/
def optEntry {a : Type} (o : Option a) (f : a → RStr × List RStr) :
    List (RStr × List RStr) :=
  match o with
  | some x => [f x]
  | none => []

/-- src/cyberpunkpath/params.rs `Params::to_query`, as the list of entries in
the order the source inserts them. The source collects them into a `HashMap`
whose iteration order is arbitrary; `displayWith` below therefore takes the
iteration order as an explicit argument. -/
def Params.to_query (p : Params) : List (RStr × List RStr) :=
  List.flatten
    [ optEntry p.format (fun f => (str "format", [f.display])),
      optEntry p.codec (fun c => (str "codec", [c])),
      optEntry p.sample_rate (fun r => (str "sample_rate", [intChars r])),
      optEntry p.channels (fun c => (str "channels", [intChars c])),
      optEntry p.bit_rate (fun r => (str "bit_rate", [intChars r])),
      optEntry p.bit_depth (fun d => (str "bit_depth", [intChars d])),
      optEntry p.quality (fun q => (str "quality", [ratDisplay q])),
      optEntry p.compression_level (fun l => (str "compression_level", [intChars l])),
      optEntry p.start_time (fun t => (str "start_time", [ratDisplay t])),
      optEntry p.duration (fun d => (str "duration", [ratDisplay d])),
      optEntry p.speed (fun s => (str "speed", [ratDisplay s])),
      optEntry p.reverse (fun r => (str "reverse", [boolChars r])),
      optEntry p.volume (fun v => (str "volume", [ratDisplay v])),
      optEntry p.normalize (fun n => (str "normalize", [boolChars n])),
      optEntry p.normalize_level (fun l => (str "normalize_level", [ratDisplay l])),
      optEntry p.lowpass (fun f => (str "lowpass", [ratDisplay f])),
      optEntry p.highpass (fun f => (str "highpass", [ratDisplay f])),
      optEntry p.bandpass (fun b => (str "bandpass", [b])),
      optEntry p.bass (fun b => (str "bass", [ratDisplay b])),
      optEntry p.treble (fun t => (str "treble", [ratDisplay t])),
      optEntry p.echo (fun e => (str "echo", [e])),
      optEntry p.chorus (fun c => (str "chorus", [c])),
      optEntry p.flanger (fun f => (str "flanger", [f])),
      optEntry p.phaser (fun f => (str "phaser", [f])),
      optEntry p.tremolo (fun t => (str "tremolo", [t])),
      optEntry p.compressor (fun c => (str "compressor", [c])),
      optEntry p.noise_reduction (fun n => (str "noise_reduction", [n])),
      optEntry p.fade_in (fun f => (str "fade_in", [ratDisplay f])),
      optEntry p.fade_out (fun f => (str "fade_out", [ratDisplay f])),
      optEntry p.cross_fade (fun f => (str "cross_fade", [ratDisplay f])),
      optEntry p.custom_filters (fun fs => (str "custom_filters", fs)),
      optEntry p.custom_options (fun os => (str "custom_options", os)),
      (match p.tags with
       | some ts => ts.map (fun kv => (str "tag_" ++ kv.1, [kv.2]))
       | none => []) ]

/-- src/cyberpunkpath/params.rs `impl Display for Params`:
`"{key}?{k}={urlencoded v}&…"`, joined with `&` over the backing map in
iteration order `order` (the source iterates a freshly seeded `HashMap`). -/
def displayWith (p : Params) (order : List (RStr × List RStr)) : RStr :=
  p.key ++ str "?" ++
    (List.intercalate (str "&")
      ((order.map (fun kv => kv.2.map (fun v => kv.1 ++ str "=" ++ urlencode v))).flatten))

/-- Lowercase hex encoding of a byte list (the `hex` crate). -/
def hexEncode (bytes : List Nat) : RStr :=
  bytes.flatMap (fun b => [hexLower (b / 16), hexLower (b % 16)])

/-- Index of the last occurrence of `c` (Rust `str::rfind` for a char). -/
def rfindIdx (c : Char) (s : RStr) : Option Nat :=
  match s.reverse.findIdx? (fun x => decide (x = c)) with
  | some i => some (s.length - 1 - i)
  | none => none

/-- src/cyberpunkpath/hasher.rs `suffix_result_storage_hasher`. The SHA-1
digest (external `sha1` crate) and the serialization order of the `Params`
`HashMap` are abstracted as parameters. The checked-in source refers to stale
fields `p.audio` / `p.meta` / `p.filters` that do not exist on `Params`; they
are rendered here as `p.key`, no meta branch, and `p.format`, following the
spec's description of `SuffixResult` (§4.2), which matches the rest of the
function. -/
def suffix_result_storage_hasher (sha1 : RStr → List Nat)
    (order : List (RStr × List RStr)) (p : Params) : RStr :=
  let path := displayWith p order
  let hash := '.' :: hexEncode ((sha1 path).take 10)
  let audio :=
    if isPfxOf (str "https://") p.key then p.key.drop 8
    else if isPfxOf (str "http://") p.key then p.key.drop 7
    else p.key
  match rfindIdx '.' audio with
  | some dotIdx =>
    if (match rfindIdx '/' audio with
        | none => true
        | some slashIdx => decide (slashIdx < dotIdx)) then
      let ext := match p.format with
                 | some f => '.' :: f.display
                 | none => audio.drop dotIdx
      audio.take dotIdx ++ hash ++ ext
    else audio ++ hash
  | none => audio ++ hash

/-- src/middleware.rs `CACHE_KEY_PREFIX` (note the trailing colon). -/
def CACHE_KEY_PFX : RStr := str "req_cache:"

/-- src/middleware.rs `META_CACHE_KEY_PREFIX` (note the trailing colon). -/
def META_CACHE_KEY_PFX : RStr := str "meta_cache:"

/-- src/middleware.rs lines 28-35: choose the prefix by testing whether
`params.to_string()` starts with "/meta", then compose
`format!("{}:{}:{}", prefix, method, params_hash)`. -/
def composedCacheKey (method pathStr hashStr : RStr) : RStr :=
  let pfx := if isPfxOf (str "/meta") pathStr then META_CACHE_KEY_PFX
             else CACHE_KEY_PFX
  pfx ++ str ":" ++ method ++ str ":" ++ hashStr

/-- src/middleware.rs `parse_range`: split the value after `bytes=` on `-`;
an unparseable start defaults to 0, an unparseable end to `total_size - 1`;
the end is clamped to `total_size - 1`. -/
def parse_range (range : RStr) (total_size : Nat) : Nat × Nat :=
  let parts := splitOnChar '-' range
  let start := (match parts.head? with
                | some s => parseUsizeChars s
                | none => none).getD 0
  let stop := (match (parts.drop 1).head? with
               | some s => parseUsizeChars s
               | none => none).getD (total_size - 1)
  (start, min stop (total_size - 1))

/-- An HTTP response: status, headers in insertion order, body bytes. -/
structure HttpResponse where
  status : Nat
  headers : List (RStr × RStr)
  body : List Nat
deriving DecidableEq

/-- src/middleware.rs `cache_middleware`, as a function of the request-level
inputs and the outcomes of its effects:
`sniff` stands for the external `infer::get` content-type guesser,
`getResult` for `state.cache.get(&cache_key)`,
`setResult` for `state.cache.set(...)` (its outcome is discarded by the
source via `let _ = ...`),
`rangeHdr` for the request's `Range` header,
`upstream` for `next.run(req)` and `bodyRead` for `to_bytes` of its body.
Subtraction is `Nat` truncated subtraction; the Rust source would panic in
debug mode where `end + 1 < start`. -/
def cache_middleware (sniff : List Nat → Option RStr)
    (getResult : Except RStr (Option (List Nat)))
    (setResult : Except RStr Unit)
    (rangeHdr : Option RStr)
    (upstream : HttpResponse)
    (bodyRead : Except RStr (List Nat)) :
    Except (Nat × RStr) HttpResponse :=
  match getResult with
  | .error e => .error (500, str "Failed to get cache: " ++ e)
  | .ok (some buf) =>
    let contentType := (sniff buf).getD (str "audio/mpeg")
    let totalSize := buf.length
    let fullResponse : Except (Nat × RStr) HttpResponse :=
      .ok { status := 200
            headers := [(str "content-type", contentType),
                        (str "accept-ranges", str "bytes"),
                        (str "content-length", natChars totalSize),
                        (str "cache-control", str "no-cache"),
                        (str "access-control-allow-origin", str "*"),
                        (str "content-disposition", str "inline")]
            body := buf }
    match rangeHdr with
    | some rangeStr =>
      match stripPfx (str "bytes=") rangeStr with
      | some rangeVal =>
        let se := parse_range rangeVal totalSize
        let start := se.1
        let stop := se.2
        let rlength := stop - start + 1
        let content := (buf.drop start).take (stop + 1 - start)
        .ok { status := 206
              headers := [(str "content-type", contentType),
                          (str "accept-ranges", str "bytes"),
                          (str "content-length", natChars rlength),
                          (str "content-range",
                           str "bytes " ++ natChars start ++ str "-" ++
                             natChars stop ++ str "/" ++ natChars totalSize),
                          (str "cache-control", str "no-cache"),
                          (str "access-control-allow-origin", str "*"),
                          (str "content-disposition", str "inline")]
              body := content }
      | none => fullResponse
    | none => fullResponse
  | .ok none =>
    if upstream.status ≠ 200 then .ok upstream
    else
      match bodyRead with
      | .error e => .error (500, str "Failed to read response body: " ++ e)
      | .ok bytes =>
        let _ := setResult
        .ok { upstream with body := bytes }

/-- One optional filter entry of `collect_filters`. -/
def optEntry0 {a : Type} (o : Option a) (f : a → RStr) : List RStr :=
  match o with
  | some x => [f x]
  | none => []

/-- src/cyberpunkpath/params.rs `Params::collect_filters`: the structured
audio filters in source order, then the custom filters. -/
def Params.collect_filters (p : Params) : List RStr :=
  List.flatten
    [ (match p.speed with
       | some s => if s ≠ 1 then [str "atempo=" ++ fmtFixed 3 s] else []
       | none => []),
      (match p.reverse with
       | some true => [str "areverse"]
       | _ => []),
      (match p.volume with
       | some v => if v ≠ 1 then [str "volume=" ++ fmtFixed 2 v] else []
       | none => []),
      (match p.normalize with
       | some true => [str "loudnorm=I=" ++ fmtFixed 1 ((p.normalize_level).getD (-16))]
       | _ => []),
      optEntry0 p.lowpass (fun f => str "lowpass=f=" ++ fmtFixed 1 f),
      optEntry0 p.highpass (fun f => str "highpass=f=" ++ fmtFixed 1 f),
      optEntry0 p.bandpass (fun b => str "bandpass=" ++ b),
      optEntry0 p.bass (fun b => str "bass=g=" ++ fmtFixed 1 b),
      optEntry0 p.treble (fun t => str "treble=g=" ++ fmtFixed 1 t),
      optEntry0 p.echo (fun e => str "aecho=" ++ e),
      optEntry0 p.chorus (fun c => str "chorus=" ++ c),
      optEntry0 p.flanger (fun f => str "flanger=" ++ f),
      optEntry0 p.phaser (fun f => str "aphaser=" ++ f),
      optEntry0 p.tremolo (fun t => str "tremolo=" ++ t),
      optEntry0 p.compressor (fun c => str "acompressor=" ++ c),
      optEntry0 p.noise_reduction (fun n => str "anlmdn=" ++ n),
      optEntry0 p.fade_in (fun f => str "afade=t=in:d=" ++ fmtFixed 3 f),
      optEntry0 p.fade_out (fun f => str "afade=t=out:d=" ++ fmtFixed 3 f),
      optEntry0 p.cross_fade (fun f => str "acrossfade=d=" ++ fmtFixed 3 f),
      (p.custom_filters).getD [] ]

/-- src/cyberpunkpath/params.rs `Params::to_ffmpeg_args`: structured encoding
options in source order, then `-filter:a` with the comma-joined filters when
any, then the raw custom options. -/
def Params.to_ffmpeg_args (p : Params) : List RStr :=
  List.flatten
    [ (match p.format with
       | some f => [str "-f", f.display]
       | none => []),
      (match p.codec with
       | some c => [str "-c:a", c]
       | none => []),
      (match p.sample_rate with
       | some r => [str "-ar", intChars r]
       | none => []),
      (match p.channels with
       | some c => [str "-ac", intChars c]
       | none => []),
      (match p.bit_rate with
       | some r => [str "-b:a", intChars r ++ str "k"]
       | none => []),
      (match p.quality with
       | some q => [str "-q:a", fmtFixed 1 q]
       | none => []),
      (match p.compression_level with
       | some l => [str "-compression_level", intChars l]
       | none => []),
      (match p.start_time with
       | some t => [str "-ss", fmtFixed 3 t]
       | none => []),
      (match p.duration with
       | some d => [str "-t", fmtFixed 3 d]
       | none => []),
      (let filters := p.collect_filters
       if filters.isEmpty then []
       else [str "-filter:a", List.intercalate (str ",") filters]),
      (p.custom_options).getD [] ]

/-- The claim's / spec §4.5.1's description of the argument vector, written
from the specification's words: the structured options in the fixed order
`-f`, `-c:a`, `-ar`, `-ac`, `-b:a {}k`, `-q:a`, `-compression_level`, `-ss`,
`-t`, then exactly one `-filter:a` carrying the comma-joined filter list iff
that list is non-empty, then all custom options in order. -/
def specFfmpegArgs (p : Params) : List RStr :=
  (match p.format with
   | some f => [str "-f", f.display]
   | none => []) ++
  (match p.codec with
   | some c => [str "-c:a", c]
   | none => []) ++
  (match p.sample_rate with
   | some r => [str "-ar", intChars r]
   | none => []) ++
  (match p.channels with
   | some c => [str "-ac", intChars c]
   | none => []) ++
  (match p.bit_rate with
   | some r => [str "-b:a", intChars r ++ str "k"]
   | none => []) ++
  (match p.quality with
   | some q => [str "-q:a", fmtFixed 1 q]
   | none => []) ++
  (match p.compression_level with
   | some l => [str "-compression_level", intChars l]
   | none => []) ++
  (match p.start_time with
   | some t => [str "-ss", fmtFixed 3 t]
   | none => []) ++
  (match p.duration with
   | some d => [str "-t", fmtFixed 3 d]
   | none => []) ++
  (if p.collect_filters = [] then []
   else [str "-filter:a", List.intercalate (str ",") p.collect_filters]) ++
  (p.custom_options).getD []

end Cyberpunk

namespace Cyberpunk.Norm

/-- src/cyberpunkpath/normalize.rs. Keys are modelled as lists of Unicode
codepoints (`List Nat`); `escape` works on the UTF-8 bytes of the cleaned
key, exactly as the source iterates `s.as_bytes()` and pushes each unescaped
byte back as a `char`. -/
inductive SafeCharsType
  | default
  | custom (extra : List Nat)
  | noop
deriving DecidableEq

/-- Is the byte an ASCII alphanumeric? -/
def isAsciiAlnumByte (b : Nat) : Bool :=
  (48 ≤ b && b ≤ 57) || (65 ≤ b && b ≤ 90) || (97 ≤ b && b ≤ 122)

/-- src/cyberpunkpath/normalize.rs `SafeChars::should_escape`. -/
def should_escape : SafeCharsType → Nat → Bool
  | .default, c =>
    !(isAsciiAlnumByte c || c == 47 || c == 45 || c == 95 || c == 46 || c == 126)
  | .custom extra, c =>
    !(isAsciiAlnumByte c || c == 47 || c == 45 || c == 95 || c == 46 ||
      c == 126 || extra.contains c)
  | .noop, _ => false

/-- The codepoints removed by the `.replace(['\r', '\n', VT, FF, NEL, LS, PS], "")`
call: CR, LF, VT, FF, NEL, LS, PS. -/
def removedCodepoints : List Nat := [0x0D, 0x0A, 0x0B, 0x0C, 0x85, 0x2028, 0x2029]

/-- First stage of cleaning: `key.replace("\r\n", "")`. -/
def removeCRLF : List Nat → List Nat
  | [] => []
  | [c] => [c]
  | c :: d :: rest =>
    if c = 13 ∧ d = 10 then removeCRLF rest
    else c :: removeCRLF (d :: rest)

/-- Both cleaning stages of `normalize`. -/
def clean (s : List Nat) : List Nat :=
  (removeCRLF s).filter (fun c => !(removedCodepoints.contains c))

/-- Rust `str::trim_matches('/')`: strip slashes from both ends. -/
def trimSlashes (s : List Nat) : List Nat :=
  ((s.dropWhile (fun c => c == 47)).reverse.dropWhile (fun c => c == 47)).reverse

/-- UTF-8 bytes of a codepoint sequence (`str::as_bytes`). -/
def utf8Bytes (s : List Nat) : List Nat :=
  s.flatMap Cyberpunk.utf8EncodeChar

/-- Uppercase-hex digit as a codepoint (the source indexes `UPPER_HEX`). -/
def hexUpperByte (n : Nat) : Nat := if n < 10 then 48 + n else 55 + n

/-- src/cyberpunkpath/normalize.rs `escape`: per UTF-8 byte, escaped space
becomes `+`, any other escaped byte becomes `%XX`, and an unescaped byte is
pushed back as the codepoint equal to the byte value. -/
def escape (sc : SafeCharsType) (s : List Nat) : List Nat :=
  (utf8Bytes s).flatMap (fun b =>
    if should_escape sc b then
      if b = 32 then [43] else [37, hexUpperByte (b / 16), hexUpperByte (b % 16)]
    else [b])

/-- src/cyberpunkpath/normalize.rs `normalize`. The `Path::new(..).to_str()`
round-trip in the source is the identity on valid strings. -/
def normalize (key : List Nat) (sc : SafeCharsType) : List Nat :=
  escape sc (trimSlashes (clean key))

end Cyberpunk.Norm

namespace Cyberpunk.Tags

open Cyberpunk

/-- src/tags.rs `MAX_TAG_VALUE_LENGTH`. -/
def MAX_TAG_VALUE_LENGTH : Nat := 256

/-- src/tags.rs `TagError`. -/
inductive TagError
  | invalidTagName (msg : RStr)
  | invalidTagValue (name value : RStr)
deriving DecidableEq

/-- Number of UTF-8 bytes of one codepoint (for Rust `String::len`). -/
def utf8LenChar (c : Char) : Nat :=
  if c.toNat < 0x80 then 1
  else if c.toNat < 0x800 then 2
  else if c.toNat < 0x10000 then 3
  else 4

/-- Rust `String::len`: the UTF-8 byte length. -/
def utf8Len (s : RStr) : Nat := (s.map utf8LenChar).sum

/-- The source's per-character name check
`c.is_alphanumeric() || c == '_'`. Rust's `char::is_alphanumeric` is
Unicode-wide; the model implements its ASCII fragment, and theorems that
quantify over tag names therefore assume ASCII names. -/
def nameCharOk (c : Char) : Bool :=
  (decide ('a' ≤ c) && decide (c ≤ 'z')) ||
  (decide ('A' ≤ c) && decide (c ≤ 'Z')) ||
  (decide ('0' ≤ c) && decide (c ≤ '9')) || decide (c = '_')

/-- Model of `HashMap::insert` on an association-list basis: the new binding shadows
any previous binding of the key. A `HashMap` has no observable order, so the
model's list order carries no meaning; lookups go through `findTag`. -/
def insertTag (m : List (RStr × RStr)) (k v : RStr) : List (RStr × RStr) :=
  (k, v) :: m.filter (fun e => !(decide (e.1 = k)))

/-- Model of `HashMap::get` on the association list. -/
def findTag (m : List (RStr × RStr)) (k : RStr) : Option RStr :=
  (m.find? (fun e => decide (e.1 = k))).map (fun e => e.2)

/-- Value of the last binding of `k` in a list of pairs (later bindings of a
key shadow earlier ones under `insertTag`). -/
def findLastTag (m : List (RStr × RStr)) (k : RStr) : Option RStr :=
  findTag m.reverse k

/-- First-some choice on options. -/
def orO {a : Type} : Option a → Option a → Option a
  | some x, _ => some x
  | none, b => b

/-- The four default tags inserted by `create_tags`; `timestamp`, `host` and
`version` come from the environment and are parameters of the model. -/
def defaultTags (now host version : RStr) : List (RStr × RStr) :=
  insertTag (insertTag (insertTag (insertTag [] (str "processor") (str "Cyberpunk"))
    (str "timestamp") now) (str "host") host) (str "version") version

/-- The validating loop over the custom tags, in iteration order. -/
def addCustomTags (acc : List (RStr × RStr)) :
    List (RStr × RStr) → Except TagError (List (RStr × RStr))
  | [] => .ok acc
  | (k, v) :: rest =>
    if ¬ (k.all nameCharOk = true) then
      .error (.invalidTagName (str "Invalid tag name: " ++ k))
    else if MAX_TAG_VALUE_LENGTH < utf8Len v then
      .error (.invalidTagValue k v)
    else addCustomTags (insertTag acc k v) rest

/-- src/tags.rs `create_tags`. The custom tags arrive as a list in the
(arbitrary) iteration order of the source's `HashMap`. -/
def create_tags (now host version : RStr) (custom : List (RStr × RStr)) :
    Except TagError (List (RStr × RStr)) :=
  addCustomTags (defaultTags now host version) custom

end Cyberpunk.Tags

namespace Cyberpunk.FsCache

open Cyberpunk

/-- A filesystem, as a write-history of path/contents pairs; lookup returns
the most recent write. -/
abbrev Fs := List (RStr × List Nat)

def fsLookup (fs : Fs) (p : RStr) : Option (List Nat) :=
  (fs.find? (fun e => decide (e.1 = p))).map (fun e => e.2)

def fsWrite (fs : Fs) (p : RStr) (v : List Nat) : Fs := (p, v) :: fs

/-- src/cache/fs.rs `get_file_path`: `base_path.join(key)`. -/
def get_file_path (base key : RStr) : RStr := base ++ str "/" ++ key

/-- src/cache/fs.rs `get_meta_path`: `base_path.join(key + ".meta")`. -/
def get_meta_path (base key : RStr) : RStr := base ++ str "/" ++ key ++ str ".meta"

/-- Decimal ASCII bytes of a natural number (`u64::to_string` written to the
meta file); fuel-based structural recursion so the kernel can evaluate it. -/
def natDecimalAux : Nat → Nat → List Nat → List Nat
  | 0, _, acc => acc
  | fuel + 1, n, acc =>
    let acc2 := (48 + n % 10) :: acc
    if n / 10 = 0 then acc2 else natDecimalAux fuel (n / 10) acc2

def natDecimal (n : Nat) : List Nat := natDecimalAux (n + 1) n []

/-- Rust `str::parse::<u64>()` on the meta file's bytes: optional `+`,
digits, 64-bit bound. -/
def parseU64 (bs : List Nat) : Option Nat :=
  let t := if bs.head? = some 43 then bs.tail else bs
  let v := t.foldl (fun a b => a * 10 + (b - 48)) 0
  if !t.isEmpty && t.all (fun b => decide (48 ≤ b) && decide (b ≤ 57)) &&
      decide (v < 2 ^ 64) then
    some v
  else none

/-- src/cache/fs.rs `is_expired`: missing meta or unparseable meta means "not
expired"; otherwise expired iff `now > expiry`. -/
def is_expired (fs : Fs) (base key : RStr) (now : Nat) : Bool :=
  match fsLookup fs (get_meta_path base key) with
  | none => false
  | some content =>
    match parseU64 content with
    | some expiry => decide (now > expiry)
    | none => false

/-- src/cache/fs.rs `FileSystemCache::set`: write the data file, and write the
meta file (absolute expiry `now + ttl` in seconds) only when a TTL is given. -/
def set (fs : Fs) (base key : RStr) (value : List Nat) (ttl : Option Nat)
    (now : Nat) : Fs :=
  let fs1 := fsWrite fs (get_file_path base key) value
  match ttl with
  | some d => fsWrite fs1 (get_meta_path base key) (natDecimal (now + d))
  | none => fs1

/-- src/cache/fs.rs `FileSystemCache::get`: `None` when the data file is
missing or the entry is expired, otherwise the contents. -/
def get (fs : Fs) (base key : RStr) (now : Nat) : Option (List Nat) :=
  if (fsLookup fs (get_file_path base key)).isNone ∨ is_expired fs base key now then
    none
  else fsLookup fs (get_file_path base key)

end Cyberpunk.FsCache

namespace Cyberpunk.Proc

/-- src/processor/processor.rs `Processor::new`: `max_concurrent` is the
configured concurrency when set, else the number of CPUs; the
`NonZeroUsize::new(..).expect(..)` panics are the `none` cases. -/
def max_concurrent (concurrency : Option Nat) (numCpus : Nat) : Option Nat :=
  match concurrency with
  | some c => if c = 0 then none else some c
  | none => if numCpus = 0 then none else some numCpus

/-- State of the processor's semaphore: free permits and in-flight
invocations (each in-flight `process` call holds exactly one permit from
`acquire` until its `_permit` guard is dropped). -/
structure SemState where
  permits : Nat
  inFlight : Nat
deriving DecidableEq

/-- Transitions of `Processor::process` against the semaphore:
`acquire` succeeds only when a permit is free; `exit` covers every way an
invocation ends — success, processing error, or cancellation — because the
RAII permit guard is dropped on all exit paths. -/
inductive SemStep : SemState → SemState → Prop
  | acquire (s : SemState) (h : 0 < s.permits) :
      SemStep s ⟨s.permits - 1, s.inFlight + 1⟩
  | exit (s : SemState) (h : 0 < s.inFlight) :
      SemStep s ⟨s.permits + 1, s.inFlight - 1⟩

/-- States reachable from a freshly built `Processor` with `n` permits. -/
inductive SemReach (n : Nat) : SemState → Prop
  | init : SemReach n ⟨n, 0⟩
  | step {s t : SemState} : SemReach n s → SemStep s t → SemReach n t

end Cyberpunk.Proc

namespace Cyberpunk

/-! Shared lemmas about the embedded definitions. -/

set_option maxHeartbeats 1000000 in
theorem applyParam_key (p : Params) (k v : RStr) : (applyParam p k v).key = p.key := by
  simp only [applyParam, apply_ite Params.key, ite_self]

theorem foldl_applyParam_key (q : List (RStr × RStr)) (p : Params) :
    (q.foldl (fun p kv => applyParam p kv.1 kv.2) p).key = p.key := by
  induction q generalizing p with
  | nil => rfl
  | cons kv rest ih =>
    rw [List.foldl_cons, ih (applyParam p kv.1 kv.2), applyParam_key]

/-- Parsing via `Params::from_path` always succeeds, and the key of the result is the
last `/`-segment of the path (which therefore contains no `/`). -/
theorem from_path_spec (path : RStr) (query : List (RStr × RStr)) :
    ∃ p : Params, Params.from_path path query = .ok p ∧
      p.key = (splitOnChar '/' path).getLast?.getD [] ∧ '/' ∉ p.key := by
  cases h : (splitOnChar '/' path).getLast? with
  | none =>
    exact absurd (List.getLast?_eq_none_iff.mp h) (splitOnChar_ne_nil '/' path)
  | some k =>
    refine ⟨query.foldl (fun p kv => applyParam p kv.1 kv.2) { key := k }, ?_, ?_, ?_⟩
    · unfold Params.from_path
      rw [h]
    · rw [foldl_applyParam_key]
      rfl
    · rw [foldl_applyParam_key]
      have hmem : k ∈ (splitOnChar '/' path).getLast? := Option.mem_def.mpr h
      obtain ⟨hne, hk⟩ := List.mem_getLast?_eq_getLast hmem
      have hk2 : k ∈ splitOnChar '/' path := hk ▸ List.getLast_mem hne
      exact mem_splitOnChar_not_mem '/' path k hk2

theorem isPfxOf_append_self (pat s : RStr) : isPfxOf pat (pat ++ s) = true := by
  induction pat with
  | nil => rfl
  | cons a as ih => simp [isPfxOf, ih]

theorem stripPfx_append (pat s : RStr) : stripPfx pat (pat ++ s) = some s := by
  simp [stripPfx, isPfxOf_append_self, List.drop_left]

/-- A serialized `Params` whose key has no `/` never starts with `/meta`. -/
theorem displayWith_not_meta (p : Params) (order : List (RStr × List RStr))
    (h : '/' ∉ p.key) : isPfxOf (str "/meta") (displayWith p order) = false := by
  unfold displayWith
  cases hk : p.key with
  | nil => rfl
  | cons c cs =>
    have hc : ¬ ('/' = c) := by
      intro hcc
      exact h (by rw [hk, ← hcc]; exact List.mem_cons_self _ _)
    have h1 : str "/meta" = '/' :: str "meta" := rfl
    rw [h1]
    simp only [List.cons_append]
    simp [isPfxOf, hc]

end Cyberpunk

namespace Cyberpunk

/-! Claim C4. -/

/-- C4 counterexample: `Params::from_str "/"` (the trailing-slash path)
succeeds, and the resulting `key` is the empty string — so a successful parse
does not guarantee a non-empty key. -/
theorem c4_counterexample :
    Params.from_str (fun _ => []) (str "/") = .ok ({ key := [] } : Params) := rfl

/-- C4 (amended): `Params::from_path` always succeeds; the resulting `key` is
the last `/`-segment of the path, which contains no `/` but may be empty
(for an empty path or a path ending in `/`). -/
theorem c4_key_is_last_segment (path : RStr) (query : List (RStr × RStr)) :
    ∃ p : Params, Params.from_path path query = .ok p ∧
      p.key = (splitOnChar '/' path).getLast?.getD [] ∧ '/' ∉ p.key :=
  from_path_spec path query

/-! Claim C8. -/

/-- C8 counterexample: the composed response-cache key is not
`"req_cache:GET:h"` as the claim's format string with prefix `req_cache`
would give; the constant `CACHE_KEY_PREFIX` already ends in a colon, so the
composed key is `"req_cache::GET:h"` with a double colon. -/
theorem c8_counterexample :
    composedCacheKey (str "GET") (str "test.mp3?format=mp3") (str "h") ≠
      str "req_cache" ++ str ":" ++ str "GET" ++ str ":" ++ str "h" ∧
    composedCacheKey (str "GET") (str "test.mp3?format=mp3") (str "h") =
      str "req_cache::GET:h" := ⟨by decide, rfl⟩

/-- C8 (amended): for every parsed request the composed cache key is
`"req_cache::{METHOD}:{SuffixResult}"` — the prefix constant carries its own
trailing colon, and the `meta_cache:` prefix is never selected because the
source tests `params.to_string()` (which starts with the slash-free key,
never with `/meta`) instead of the request path. -/
theorem c8_cache_key_shape (path : RStr) (query : List (RStr × RStr))
    (p : Params) (order : List (RStr × List RStr)) (method : RStr)
    (sha1 : RStr → List Nat)
    (hp : Params.from_path path query = .ok p) :
    composedCacheKey method (displayWith p order)
        (suffix_result_storage_hasher sha1 order p) =
      str "req_cache::" ++ method ++ str ":" ++
        suffix_result_storage_hasher sha1 order p := by
  obtain ⟨p2, hp2, hkey, hslash⟩ := from_path_spec path query
  rw [hp] at hp2
  injection hp2 with he
  subst he
  have hmeta := displayWith_not_meta p order hslash
  unfold composedCacheKey
  rw [hmeta]
  rfl

/-- C8 witness: the key-shape theorem applied to the concrete request
`unsafe/test.mp3` with method GET. -/
theorem c8_cache_key_shape_witness :
    composedCacheKey (str "GET")
        (displayWith { key := str "test.mp3" } [])
        (suffix_result_storage_hasher (fun _ => []) [] { key := str "test.mp3" }) =
      str "req_cache::" ++ str "GET" ++ str ":" ++
        suffix_result_storage_hasher (fun _ => []) [] { key := str "test.mp3" } :=
  c8_cache_key_shape (str "unsafe/test.mp3") [] { key := str "test.mp3" } []
    (str "GET") (fun _ => []) rfl

/-! Claim C2. -/

/-- The `Params` value of scenario-style failing input for C2:
`test.mp3?format=mp3&volume=0.8`. -/
def c2Params : Params :=
  { key := str "test.mp3", format := some .mp3, volume := some (mkRat 4 5) }

/-- C2: the canonical serialization is *not* a function of the `Params` value
alone — it iterates a freshly seeded `HashMap`, so field-equal values can
serialize differently. Concretely, the same `Params` rendered under two
iteration orders of the same query map (the insertion order and its reverse,
which is a permutation of it) yields different byte strings; the SHA-1-based
`SuffixResult` of the two serializations then differs as well. -/
theorem c2_serialization_order_dependent :
    (Params.to_query c2Params).reverse.Perm (Params.to_query c2Params) ∧
    displayWith c2Params (Params.to_query c2Params).reverse ≠
      displayWith c2Params (Params.to_query c2Params) := by
  constructor
  · decide
  · decide

end Cyberpunk

namespace Cyberpunk

/-! Claim C1. -/

/-- C1 counterexample: a response-cache read failure *is* fatal to the
request — `cache_middleware` maps a cache `get` error to an HTTP 500 error
response via `map_err(..)?`, contradicting the claim that cache failures are
recovered locally and never surfaced. -/
theorem c1_counterexample :
    cache_middleware (fun _ => none) (.error (str "io error")) (.ok ()) none
        { status := 200, headers := [], body := [] } (.ok []) =
      .error (500, str "Failed to get cache: io error") := rfl

/-- C1 (amended): only cache *write* failures are recovered: the outcome of
`cache.set` is discarded (`let _ = ...`) and never influences the response,
but every cache *read* failure aborts the request with
`500 "Failed to get cache: …"`. -/
theorem c1_cache_error_handling :
    (∀ (sniff : List Nat → Option RStr) (e : RStr) (setRes : Except RStr Unit)
        (rangeHdr : Option RStr) (upstream : HttpResponse)
        (bodyRead : Except RStr (List Nat)),
      cache_middleware sniff (.error e) setRes rangeHdr upstream bodyRead =
        .error (500, str "Failed to get cache: " ++ e)) ∧
    (∀ (sniff : List Nat → Option RStr) (getRes : Except RStr (Option (List Nat)))
        (s1 s2 : Except RStr Unit) (rangeHdr : Option RStr)
        (upstream : HttpResponse) (bodyRead : Except RStr (List Nat)),
      cache_middleware sniff getRes s1 rangeHdr upstream bodyRead =
        cache_middleware sniff getRes s2 rangeHdr upstream bodyRead) :=
  ⟨fun _ _ _ _ _ _ => rfl, fun _ _ _ _ _ _ _ => rfl⟩

/-! Claim C5. -/

/-- C5 counterexample: a cached request with the malformed range header
`bytes=abc-xyz` is *not* rejected with 400 BadRequest; the unparseable bounds
silently default to the full range and the response is 206 Partial Content. -/
theorem c5_counterexample :
    cache_middleware (fun _ => none) (.ok (some [10, 20, 30, 40])) (.ok ())
        (some (str "bytes=abc-xyz")) { status := 200, headers := [], body := [] }
        (.ok []) =
      .ok { status := 206,
            headers := [(str "content-type", str "audio/mpeg"),
                        (str "accept-ranges", str "bytes"),
                        (str "content-length", str "4"),
                        (str "content-range", str "bytes 0-3/4"),
                        (str "cache-control", str "no-cache"),
                        (str "access-control-allow-origin", str "*"),
                        (str "content-disposition", str "inline")],
            body := [10, 20, 30, 40] } := rfl

/-- C5 (amended): on a cache hit, a `Range` header of the form `bytes=` with
bounds that fail integer parsing never produces an error response: the start
defaults to 0 and the end to `len-1`, and the request is served as 206 with
the full body. A 400 is never produced for a malformed range. -/
theorem c5_malformed_range_served_206 (sniff : List Nat → Option RStr)
    (buf : List Nat) (setRes : Except RStr Unit) (upstream : HttpResponse)
    (bodyRead : Except RStr (List Nat)) (rv : RStr)
    (hbuf : buf ≠ [])
    (hstart : (match (splitOnChar '-' rv).head? with
               | some s => parseUsizeChars s
               | none => none) = (none : Option Nat))
    (hstop : (match ((splitOnChar '-' rv).drop 1).head? with
              | some s => parseUsizeChars s
              | none => none) = (none : Option Nat)) :
    cache_middleware sniff (.ok (some buf)) setRes (some (str "bytes=" ++ rv))
        upstream bodyRead =
      .ok { status := 206,
            headers := [(str "content-type", (sniff buf).getD (str "audio/mpeg")),
                        (str "accept-ranges", str "bytes"),
                        (str "content-length", natChars buf.length),
                        (str "content-range",
                         str "bytes " ++ natChars 0 ++ str "-" ++
                           natChars (buf.length - 1) ++ str "/" ++ natChars buf.length),
                        (str "cache-control", str "no-cache"),
                        (str "access-control-allow-origin", str "*"),
                        (str "content-disposition", str "inline")],
            body := buf } := by
  have hlen : 0 < buf.length := List.length_pos.mpr hbuf
  simp only [cache_middleware, stripPfx_append, parse_range, hstart, hstop,
    Option.getD_none, Nat.min_self, Nat.zero_le, Nat.sub_zero,
    Nat.sub_add_cancel hlen, List.drop_zero, List.take_length]

/-- C5 witness: the malformed-range theorem applied to a two-byte cached
entry and the range value `a-b`. -/
theorem c5_malformed_range_witness :
    ([7, 8] : List Nat) ≠ [] ∧
    cache_middleware (fun _ => none) (.ok (some [7, 8])) (.ok ())
        (some (str "bytes=" ++ str "a-b")) { status := 200, headers := [], body := [] }
        (.ok []) =
      .ok { status := 206,
            headers := [(str "content-type", str "audio/mpeg"),
                        (str "accept-ranges", str "bytes"),
                        (str "content-length", natChars 2),
                        (str "content-range",
                         str "bytes " ++ natChars 0 ++ str "-" ++ natChars 1 ++
                           str "/" ++ natChars 2),
                        (str "cache-control", str "no-cache"),
                        (str "access-control-allow-origin", str "*"),
                        (str "content-disposition", str "inline")],
            body := [7, 8] } :=
  ⟨by decide,
   c5_malformed_range_served_206 (fun _ => none) [7, 8] (.ok ())
     { status := 200, headers := [], body := [] } (.ok []) (str "a-b")
     (by decide) (by decide) (by decide)⟩

end Cyberpunk

namespace Cyberpunk

/-! Claim C6. -/

/-- The `Params` of scenario S7:
`{key:"x", format:Wav, codec:"pcm_s16le", sample_rate:44100, channels:2}`. -/
def s7Params : Params :=
  { key := str "x"
    format := some .wav
    codec := some (str "pcm_s16le")
    sample_rate := some 44100
    channels := some 2 }

/-- C6: `to_ffmpeg_args` emits exactly the spec's §4.5.1 argument layout
(`specFfmpegArgs`, written from the claim's words): the structured options in
the fixed order `-f`, `-c:a`, `-ar`, `-ac`, `-b:a{}k`, `-q:a`,
`-compression_level`, `-ss`, `-t`, then one `-filter:a` with the comma-joined
filter list iff the list is non-empty, then all custom options in order; and
on the S7 input the argument vector is exactly
`-f wav -c:a pcm_s16le -ar 44100 -ac 2`. -/
theorem c6_ffmpeg_args_order :
    (∀ p : Params, Params.to_ffmpeg_args p = specFfmpegArgs p) ∧
    Params.to_ffmpeg_args s7Params =
      [str "-f", str "wav", str "-c:a", str "pcm_s16le", str "-ar", str "44100",
       str "-ac", str "2"] := by
  constructor
  · intro p
    unfold Params.to_ffmpeg_args specFfmpegArgs
    by_cases hf : p.collect_filters = [] <;>
      simp [hf, List.isEmpty_iff, List.append_assoc]
  · rfl

end Cyberpunk

namespace Cyberpunk.Proc

/-- Invariant of the semaphore protocol: free permits plus in-flight
invocations always equal the initial permit count. -/
theorem semReach_invariant (n : Nat) (s : SemState) (h : SemReach n s) :
    s.permits + s.inFlight = n := by
  induction h with
  | init => rfl
  | step hr hs ih =>
    cases hs with
    | acquire hpos => dsimp only; omega
    | exit hpos => dsimp only; omega

/-- C9: in every state reachable under the semaphore protocol of
`Processor::process` (acquire one permit per invocation, release on every
exit path including errors), the number of in-flight transcoder invocations
never exceeds `N`, where `N = max_concurrent` is the configured concurrency
when set and the number of CPUs otherwise. -/
theorem c9_concurrency_bound (conc : Option Nat) (cpus n : Nat) (s : SemState)
    (hmax : max_concurrent conc cpus = some n) (hreach : SemReach n s) :
    s.inFlight ≤ n ∧ (∀ c, conc = some c → n = c) ∧ (conc = none → n = cpus) := by
  refine ⟨?_, ?_, ?_⟩
  · have := semReach_invariant n s hreach
    omega
  · intro c hc
    subst hc
    unfold max_concurrent at hmax
    by_cases h0 : c = 0
    · simp [h0] at hmax
    · simp [h0] at hmax
      omega
  · intro hc
    subst hc
    unfold max_concurrent at hmax
    by_cases h0 : cpus = 0
    · simp [h0] at hmax
    · simp [h0] at hmax
      omega

/-- C9 witness: with configured concurrency 2 (on an 8-CPU host), after one
acquisition the reachable state `⟨1 permit, 1 in flight⟩` satisfies the
bound. -/
theorem c9_concurrency_bound_witness : (SemState.mk 1 1).inFlight ≤ 2 :=
  (c9_concurrency_bound (some 2) 8 2 (SemState.mk 1 1) rfl
    (SemReach.step SemReach.init (SemStep.acquire (SemState.mk 2 0) (by decide)))).1

end Cyberpunk.Proc

namespace Cyberpunk.FsCache

/-! Round-trip of the meta file's decimal encoding, and claim C10. -/

theorem natDecimalAux_fuel_irrel (n : Nat) : ∀ f1 f2 acc, n < f1 → n < f2 →
    natDecimalAux f1 n acc = natDecimalAux f2 n acc := by
  induction n using Nat.strong_induction_on with
  | _ n ih =>
    intro f1 f2 acc h1 h2
    cases f1 with
    | zero => omega
    | succ a =>
      cases f2 with
      | zero => omega
      | succ b =>
        simp only [natDecimalAux]
        by_cases h0 : n / 10 = 0
        · simp [h0]
        · simp only [h0, if_neg h0]
          have hlt : n / 10 < n := Nat.div_lt_self (by omega) (by omega)
          exact ih (n / 10) hlt a b _ (by omega) (by omega)

theorem natDecimalAux_acc (n : Nat) : ∀ acc,
    natDecimalAux (n + 1) n acc = natDecimal n ++ acc := by
  induction n using Nat.strong_induction_on with
  | _ n ih =>
    intro acc
    by_cases h0 : n / 10 = 0
    · simp [natDecimalAux, natDecimal, h0]
    · have hlt : n / 10 < n := Nat.div_lt_self (by omega) (by omega)
      have hstep : ∀ acc2, natDecimalAux (n + 1) n acc2 =
          natDecimalAux (n / 10 + 1) (n / 10) ((48 + n % 10) :: acc2) := by
        intro acc2
        simp only [natDecimalAux, if_neg h0]
        exact natDecimalAux_fuel_irrel (n / 10) n (n / 10 + 1) _ (by omega) (by omega)
      rw [hstep acc, ih (n / 10) hlt]
      show _ = natDecimalAux (n + 1) n [] ++ acc
      rw [hstep [], ih (n / 10) hlt]
      simp

theorem natDecimal_step (n : Nat) :
    natDecimal n = if n / 10 = 0 then [48 + n % 10]
                   else natDecimal (n / 10) ++ [48 + n % 10] := by
  by_cases h0 : n / 10 = 0
  · simp [natDecimal, natDecimalAux, h0]
  · rw [if_neg h0]
    have h1 : natDecimal n = natDecimalAux n (n / 10) [48 + n % 10] := by
      simp only [natDecimal, natDecimalAux, if_neg h0]
    rw [h1, natDecimalAux_fuel_irrel (n / 10) n (n / 10 + 1) _
      (Nat.div_lt_self (by omega) (by omega)) (by omega), natDecimalAux_acc]

theorem natDecimal_ne_nil (n : Nat) : natDecimal n ≠ [] := by
  rw [natDecimal_step]
  by_cases h0 : n / 10 = 0 <;> simp [h0]

theorem natDecimal_digits (n : Nat) : ∀ b ∈ natDecimal n, 48 ≤ b ∧ b ≤ 57 := by
  induction n using Nat.strong_induction_on with
  | _ n ih =>
    intro b hb
    rw [natDecimal_step] at hb
    by_cases h0 : n / 10 = 0
    · simp [h0] at hb
      have : n % 10 < 10 := Nat.mod_lt n (by omega)
      omega
    · simp only [if_neg h0, List.mem_append, List.mem_singleton] at hb
      rcases hb with hb | hb
      · exact ih (n / 10) (Nat.div_lt_self (by omega) (by omega)) b hb
      · have : n % 10 < 10 := Nat.mod_lt n (by omega)
        omega

theorem natDecimal_foldl (n : Nat) :
    (natDecimal n).foldl (fun a b => a * 10 + (b - 48)) 0 = n := by
  induction n using Nat.strong_induction_on with
  | _ n ih =>
    rw [natDecimal_step]
    by_cases h0 : n / 10 = 0
    · simp [h0]
      omega
    · simp only [if_neg h0, List.foldl_append, List.foldl_cons, List.foldl_nil]
      rw [ih (n / 10) (Nat.div_lt_self (by omega) (by omega))]
      omega

/-- Parsing the decimal string written by `set` recovers the expiry value. -/
theorem parseU64_natDecimal (n : Nat) (h : n < 2 ^ 64) :
    parseU64 (natDecimal n) = some n := by
  cases h2 : natDecimal n with
  | nil => exact absurd h2 (natDecimal_ne_nil n)
  | cons c cs =>
    have hc48 : 48 ≤ c := (natDecimal_digits n c (h2 ▸ List.mem_cons_self _ _)).1
    unfold parseU64
    rw [if_neg (show ¬ ((c :: cs).head? = some 43) by
      intro heq
      simp only [List.head?, Option.some.injEq] at heq
      omega)]
    simp only [List.tail_cons]
    have hall : (c :: cs).all (fun b => decide (48 ≤ b) && decide (b ≤ 57)) = true := by
      rw [List.all_eq_true]
      intro b hb
      have := natDecimal_digits n b (h2 ▸ hb)
      simp
      omega
    have hfold : (c :: cs).foldl (fun a b => a * 10 + (b - 48)) 0 = n := by
      rw [← h2]
      exact natDecimal_foldl n
    simp only [hall, hfold]
    simpa using h

/-- The data path and the meta path of a key always differ (the meta path has
five more characters). -/
theorem fp_ne_mp (base key : RStr) :
    get_file_path base key ≠ get_meta_path base key := by
  intro heq
  have h1 : (get_file_path base key).length + 5 = (get_meta_path base key).length := by
    simp [get_file_path, get_meta_path, str]
    omega
  rw [heq] at h1
  omega

/-- C10: `set(key, v2, None)` overwrites the data file but leaves a
pre-existing `{key}.meta` in place; so after an earlier `set(key, v1, Some d)`
whose expiry `t0 + d` has passed, a later TTL-less `set(key, v2, None)`
followed by `get(key)` at time `t1` returns `None` — the stale expiry still
governs the entry even though the data file now holds `v2`. -/
theorem c10_stale_meta_expiry (fs : Fs) (base key : RStr) (v1 v2 : List Nat)
    (d t0 t1 : Nat) (hexp : t0 + d < t1) (hbound : t0 + d < 2 ^ 64) :
    fsLookup (FsCache.set (FsCache.set fs base key v1 (some d) t0) base key v2 none t1)
        (get_meta_path base key) = some (natDecimal (t0 + d)) ∧
    fsLookup (FsCache.set (FsCache.set fs base key v1 (some d) t0) base key v2 none t1)
        (get_file_path base key) = some v2 ∧
    FsCache.get (FsCache.set (FsCache.set fs base key v1 (some d) t0) base key v2 none t1)
        base key t1 = none := by
  have hne := fp_ne_mp base key
  have hmeta : fsLookup (FsCache.set (FsCache.set fs base key v1 (some d) t0) base key v2 none t1)
      (get_meta_path base key) = some (natDecimal (t0 + d)) := by
    simp only [FsCache.set, fsWrite, fsLookup]
    rw [List.find?_cons_of_neg _ (by simpa using hne),
      List.find?_cons_of_pos _ (by simp)]
    rfl
  have hfile : fsLookup (FsCache.set (FsCache.set fs base key v1 (some d) t0) base key v2 none t1)
      (get_file_path base key) = some v2 := by
    simp only [FsCache.set, fsWrite, fsLookup]
    rw [List.find?_cons_of_pos _ (by simp)]
    rfl
  have hexpd : is_expired (FsCache.set (FsCache.set fs base key v1 (some d) t0) base key v2 none t1)
      base key t1 = true := by
    unfold is_expired
    rw [hmeta]
    dsimp only
    rw [parseU64_natDecimal (t0 + d) hbound]
    dsimp only
    simp only [decide_eq_true_eq]
    omega
  refine ⟨hmeta, hfile, ?_⟩
  unfold FsCache.get
  rw [hfile, hexpd]
  simp

/-- C10 witness: base `c`, key `k`, first write at `t0 = 10` with TTL 1,
second TTL-less write at `t1 = 12`; the stale meta survives and `get`
misses even though the data file holds the new bytes. -/
theorem c10_stale_meta_expiry_witness :
    fsLookup (FsCache.set (FsCache.set [] (str "c") (str "k") [1] (some 1) 10)
        (str "c") (str "k") [2] none 12) (get_meta_path (str "c") (str "k")) =
      some (natDecimal 11) ∧
    fsLookup (FsCache.set (FsCache.set [] (str "c") (str "k") [1] (some 1) 10)
        (str "c") (str "k") [2] none 12) (get_file_path (str "c") (str "k")) =
      some [2] ∧
    FsCache.get (FsCache.set (FsCache.set [] (str "c") (str "k") [1] (some 1) 10)
        (str "c") (str "k") [2] none 12) (str "c") (str "k") 12 = none :=
  c10_stale_meta_expiry [] (str "c") (str "k") [1] [2] 1 10 12 (by omega)
    (by norm_num)

end Cyberpunk.FsCache

namespace Cyberpunk.Norm

theorem dropWhile_dropWhile (p : Nat → Bool) (l : List Nat) :
    (l.dropWhile p).dropWhile p = l.dropWhile p := by
  induction l with
  | nil => rfl
  | cons c rest ih =>
    by_cases hc : p c
    · simp [List.dropWhile_cons, hc, ih]
    · simp [List.dropWhile_cons, hc]

theorem head?_dropWhile_not (p : Nat → Bool) (l : List Nat) (a : Nat)
    (h : (l.dropWhile p).head? = some a) : p a = false := by
  induction l with
  | nil => simp [List.dropWhile] at h
  | cons c rest ih =>
    by_cases hc : p c
    · rw [List.dropWhile_cons, if_pos hc] at h
      exact ih h
    · rw [List.dropWhile_cons, if_neg hc] at h
      simp only [List.head?, Option.some.injEq] at h
      subst h
      simpa using hc

theorem getLast?_dropWhile (p : Nat → Bool) (l : List Nat)
    (h : l.dropWhile p ≠ []) : (l.dropWhile p).getLast? = l.getLast? := by
  induction l with
  | nil => simp [List.dropWhile] at h
  | cons c rest ih =>
    by_cases hc : p c
    · rw [List.dropWhile_cons, if_pos hc] at h ⊢
      have hrest : rest ≠ [] := by
        intro hr
        rw [hr] at h
        simp [List.dropWhile] at h
      cases rest with
      | nil => exact absurd rfl hrest
      | cons r rs =>
        rw [ih h]
        exact (List.getLast?_cons_cons).symm
    · rw [List.dropWhile_cons, if_neg hc]

theorem dropWhile_eq_self_of_head (p : Nat → Bool) (l : List Nat)
    (h : ∀ a, l.head? = some a → p a = false) : l.dropWhile p = l := by
  cases l with
  | nil => rfl
  | cons c rest =>
    rw [List.dropWhile_cons, if_neg]
    rw [h c rfl]
    simp

theorem trimSlashes_idem (l : List Nat) :
    trimSlashes (trimSlashes l) = trimSlashes l := by
  unfold trimSlashes
  set p : Nat → Bool := fun c => c == 47 with hp
  set d1 := l.dropWhile p with hd1
  set d2 := d1.reverse.dropWhile p with hd2
  by_cases hnil : d2 = []
  · simp [hnil]
  · have hself : d2.reverse.dropWhile p = d2.reverse := by
      apply dropWhile_eq_self_of_head
      intro a ha
      rw [List.head?_reverse] at ha
      rw [getLast?_dropWhile p d1.reverse hnil, List.getLast?_reverse] at ha
      exact head?_dropWhile_not p l a ha
    rw [hself, List.reverse_reverse, dropWhile_dropWhile]

end Cyberpunk.Norm

namespace Cyberpunk.Norm

theorem mem_trimSlashes (l : List Nat) (c : Nat) (h : c ∈ trimSlashes l) : c ∈ l := by
  unfold trimSlashes at h
  rw [List.mem_reverse] at h
  have h2 := (List.dropWhile_sublist _).subset h
  rw [List.mem_reverse] at h2
  exact (List.dropWhile_sublist _).subset h2

theorem mem_clean_ok (s : List Nat) (c : Nat) (h : c ∈ clean s) :
    removedCodepoints.contains c = false := by
  unfold clean at h
  have := List.of_mem_filter h
  simpa using this

theorem removeCRLF_cons_ne (c : Nat) (rest : List Nat) (hc : c ≠ 13) :
    removeCRLF (c :: rest) = c :: removeCRLF rest := by
  cases rest with
  | nil => rfl
  | cons d rs =>
    show removeCRLF (c :: d :: rs) = _
    rw [removeCRLF]
    rw [if_neg (by omega)]

theorem removeCRLF_eq_self (l : List Nat) (h : (13 : Nat) ∉ l) :
    removeCRLF l = l := by
  induction l with
  | nil => rfl
  | cons c rest ih =>
    have hc : c ≠ 13 := fun hh => h (hh ▸ List.mem_cons_self _ _)
    have hr : (13 : Nat) ∉ rest := fun hm => h (List.mem_cons_of_mem _ hm)
    rw [removeCRLF_cons_ne c rest hc, ih hr]

theorem clean_of_no_removed (t : List Nat)
    (h : ∀ a ∈ t, removedCodepoints.contains a = false) : clean t = t := by
  unfold clean
  rw [removeCRLF_eq_self t (fun hm => by simpa [removedCodepoints] using h 13 hm)]
  apply List.filter_eq_self.mpr
  intro a ha
  show (!(removedCodepoints.contains a)) = true
  rw [h a ha]
  rfl

theorem escape_cons_id (sc : SafeCharsType) (c : Nat) (rest : List Nat)
    (hlt : c < 128) (hesc : should_escape sc c = false) :
    escape sc (c :: rest) = c :: escape sc rest := by
  unfold escape utf8Bytes
  simp only [List.flatMap_cons, List.flatMap_append]
  rw [show Cyberpunk.utf8EncodeChar c = [c] from by
    unfold Cyberpunk.utf8EncodeChar
    rw [if_pos (by omega)]]
  simp [hesc]

theorem escape_id (sc : SafeCharsType) (l : List Nat)
    (h : ∀ c ∈ l, c < 128 ∧ should_escape sc c = false) : escape sc l = l := by
  induction l with
  | nil => rfl
  | cons c rest ih =>
    have hc := h c (List.mem_cons_self _ _)
    rw [escape_cons_id sc c rest hc.1 hc.2,
      ih (fun x hx => h x (List.mem_cons_of_mem _ hx))]

/-- C3 counterexample: normalization is not idempotent under the `Default`
safe-chars mode. The key `"a b"` normalizes to `"a+b"`, and a second pass
re-escapes the `+` produced by the first into `%2B`, giving `"a%2Bb"`. -/
theorem c3_counterexample :
    normalize (normalize [97, 32, 98] .default) .default ≠
      normalize [97, 32, 98] .default := by decide

/-- C3 (amended): normalization is idempotent only on keys whose cleaned and
slash-trimmed form is ASCII with no byte escaped by the safe-chars mode (then
the first pass is the identity on that form). In general a second application
re-escapes the `%` and `+` bytes introduced by the first, as the
counterexample shows. -/
theorem c3_normalize_idempotent_restricted (sc : SafeCharsType) (s : List Nat)
    (h : ∀ c ∈ trimSlashes (clean s), c < 128 ∧ should_escape sc c = false) :
    normalize (normalize s sc) sc = normalize s sc := by
  have hs1 : normalize s sc = trimSlashes (clean s) := escape_id sc _ h
  rw [hs1]
  have h13 : (13 : Nat) ∉ trimSlashes (clean s) := by
    intro hmem
    have hcl : (13 : Nat) ∈ clean s := mem_trimSlashes _ _ hmem
    have := mem_clean_ok s 13 hcl
    simp [removedCodepoints] at this
  have hcleant : clean (trimSlashes (clean s)) = trimSlashes (clean s) :=
    clean_of_no_removed _ (fun a ha => mem_clean_ok s a (mem_trimSlashes _ _ ha))
  show escape sc (trimSlashes (clean (trimSlashes (clean s)))) = trimSlashes (clean s)
  rw [hcleant, trimSlashes_idem]
  exact escape_id sc _ h

end Cyberpunk.Norm

namespace Cyberpunk.Norm

/-- C3 witness: the restricted idempotence theorem applied to the key `a/b`
under `Default` safe-chars. -/
theorem c3_normalize_idempotent_witness :
    (∀ c ∈ trimSlashes (clean [97, 47, 98]), c < 128 ∧
      should_escape .default c = false) ∧
    normalize (normalize [97, 47, 98] .default) .default =
      normalize [97, 47, 98] .default :=
  ⟨by decide, c3_normalize_idempotent_restricted .default [97, 47, 98] (by decide)⟩

end Cyberpunk.Norm

namespace Cyberpunk.Tags
open Cyberpunk

theorem orO_some {a : Type} (x : a) (b : Option a) : orO (some x) b = some x := rfl

theorem orO_none {a : Type} (b : Option a) : orO none b = b := rfl

theorem orO_none_right {a : Type} (b : Option a) : orO b none = b := by
  cases b <;> rfl

theorem orO_assoc {a : Type} (x y z : Option a) :
    orO (orO x y) z = orO x (orO y z) := by
  cases x <;> rfl

theorem findTag_append (l1 l2 : List (RStr × RStr)) (k : RStr) :
    findTag (l1 ++ l2) k = orO (findTag l1 k) (findTag l2 k) := by
  unfold findTag
  rw [List.find?_append]
  cases List.find? (fun e => decide (e.1 = k)) l1 <;> rfl

theorem findTag_insertTag_self (m : List (RStr × RStr)) (k v : RStr) :
    findTag (insertTag m k v) k = some v := by
  unfold findTag insertTag
  rw [List.find?_cons_of_pos _ (by simp)]
  rfl

theorem findTag_filter_ne (m : List (RStr × RStr)) (k k2 : RStr) (h : k2 ≠ k) :
    findTag (m.filter (fun e => !(decide (e.1 = k)))) k2 = findTag m k2 := by
  induction m with
  | nil => rfl
  | cons e rest ih =>
    by_cases he : e.1 = k
    · rw [List.filter_cons_of_neg (by simp [he])]
      unfold findTag
      rw [List.find?_cons_of_neg _ (by simp [he]; exact fun hc => h hc.symm)]
      exact ih
    · rw [List.filter_cons_of_pos (by simp [he])]
      by_cases hk2 : e.1 = k2
      · unfold findTag
        rw [List.find?_cons_of_pos _ (by simp [hk2]),
          List.find?_cons_of_pos _ (by simp [hk2])]
      · unfold findTag
        rw [List.find?_cons_of_neg _ (by simp [hk2]),
          List.find?_cons_of_neg _ (by simp [hk2])]
        exact ih

theorem findTag_insertTag_ne (m : List (RStr × RStr)) (k v k2 : RStr)
    (h : k2 ≠ k) : findTag (insertTag m k v) k2 = findTag m k2 := by
  unfold insertTag
  show findTag ((k, v) :: m.filter (fun e => !(decide (e.1 = k)))) k2 = _
  unfold findTag
  rw [List.find?_cons_of_neg _ (by simp; exact fun hc => h hc.symm)]
  exact findTag_filter_ne m k k2 h

theorem findLastTag_nil (k : RStr) : findLastTag [] k = none := rfl

theorem findLastTag_cons (kk v : RStr) (rest : List (RStr × RStr)) (k : RStr) :
    findLastTag ((kk, v) :: rest) k =
      orO (findLastTag rest k) (if k = kk then some v else none) := by
  unfold findLastTag
  rw [List.reverse_cons, findTag_append]
  congr 1
  unfold findTag
  by_cases hk : kk = k
  · rw [List.find?_cons_of_pos _ (by simp [hk])]
    simp [hk]
  · rw [List.find?_cons_of_neg _ (by simp [hk])]
    rw [if_neg (fun hc => hk hc.symm)]
    rfl

theorem addCustomTags_ok_iff (custom : List (RStr × RStr)) : ∀ acc,
    (addCustomTags acc custom).isOk = true ↔
      ∀ kv ∈ custom, kv.1.all nameCharOk = true ∧
        utf8Len kv.2 ≤ MAX_TAG_VALUE_LENGTH := by
  induction custom with
  | nil =>
    intro acc
    simp [addCustomTags, Except.isOk, Except.toBool]
  | cons kv rest ih =>
    intro acc
    obtain ⟨k, v⟩ := kv
    by_cases hn : k.all nameCharOk = true
    · by_cases hv : MAX_TAG_VALUE_LENGTH < utf8Len v
      · rw [show addCustomTags acc ((k, v) :: rest) =
            .error (.invalidTagValue k v) from by
          simp [addCustomTags, hn, hv]]
        constructor
        · intro habs
          simp [Except.isOk, Except.toBool] at habs
        · intro hall
          exfalso
          have h2 := (hall (k, v) (List.mem_cons_self _ _)).2
          dsimp only at h2
          omega
      · rw [show addCustomTags acc ((k, v) :: rest) =
            addCustomTags (insertTag acc k v) rest from by
          simp [addCustomTags, hn, hv]]
        rw [ih (insertTag acc k v)]
        have hvle : utf8Len v ≤ MAX_TAG_VALUE_LENGTH := by omega
        simp [List.forall_mem_cons, hn, hvle]
        exact fun _ => List.all_eq_true.mp hn
    · rw [show addCustomTags acc ((k, v) :: rest) =
          .error (.invalidTagName (str "Invalid tag name: " ++ k)) from by
        simp [addCustomTags, hn]]
      constructor
      · intro habs
        simp [Except.isOk, Except.toBool] at habs
      · intro hall
        exact absurd (hall (k, v) (List.mem_cons_self _ _)).1 hn

theorem addCustomTags_find (custom : List (RStr × RStr)) : ∀ acc res,
    addCustomTags acc custom = .ok res → ∀ k,
      findTag res k = orO (findLastTag custom k) (findTag acc k) := by
  induction custom with
  | nil =>
    intro acc res h k
    injection h with h
    subst h
    rfl
  | cons kv rest ih =>
    intro acc res h k
    obtain ⟨kk, v⟩ := kv
    by_cases hn : kk.all nameCharOk = true
    · by_cases hv : MAX_TAG_VALUE_LENGTH < utf8Len v
      · exfalso
        simp [addCustomTags, hn, hv] at h
      · have h2 : addCustomTags (insertTag acc kk v) rest = .ok res := by
          simpa [addCustomTags, hn, hv] using h
        rw [ih (insertTag acc kk v) res h2 k, findLastTag_cons]
        by_cases hk : k = kk
        · subst hk
          rw [findTag_insertTag_self, if_pos rfl, orO_assoc, orO_some]
        · rw [findTag_insertTag_ne _ _ _ _ hk, if_neg hk, orO_none_right]
    · exfalso
      simp [addCustomTags, hn] at h

/-- The claim's tag-name pattern `[A-Za-z0-9_]+`: one or more characters of
the class (written from the spec's words). -/
def specTagNameMatches (s : RStr) : Bool := !s.isEmpty && s.all nameCharOk

/-- C7 counterexample: the empty tag name does not match `[A-Za-z0-9_]+`,
yet `create_tags` accepts it — the source checks `chars().all(..)`, which is
vacuously true on the empty name — and the merged result carries the
empty-named tag. -/
theorem c7_counterexample :
    specTagNameMatches [] = false ∧
    (create_tags (str "now") (str "host") (str "1.0") [([], str "x")]).isOk = true ∧
    findTag ((create_tags (str "now") (str "host") (str "1.0")
        [([], str "x")]).toOption.getD []) [] = some (str "x") := by
  refine ⟨rfl, ?_, ?_⟩ <;> decide

/-- C7 (amended): for ASCII tag names, `create_tags` succeeds exactly when
every custom tag name consists solely of alphanumeric-or-underscore
characters (the empty name passes; Rust's Unicode alphanumerics also pass)
and every value is at most 256 bytes; on success, looking up any key in the
result gives the last custom binding when one exists and the default
(`processor`/`timestamp`/`host`/`version`) binding otherwise. -/
theorem c7_create_tags_validation (now host version : RStr)
    (custom : List (RStr × RStr))
    (hascii : ∀ kv ∈ custom, ∀ c ∈ kv.1, c.toNat < 128) :
    ((create_tags now host version custom).isOk = true ↔
      ∀ kv ∈ custom, kv.1.all nameCharOk = true ∧
        utf8Len kv.2 ≤ MAX_TAG_VALUE_LENGTH) ∧
    (∀ res, create_tags now host version custom = .ok res → ∀ k,
      findTag res k = orO (findLastTag custom k)
        (findTag (defaultTags now host version) k)) := by
  constructor
  · exact addCustomTags_ok_iff custom (defaultTags now host version)
  · intro res h k
    exact addCustomTags_find custom (defaultTags now host version) res h k

/-- C7 witness: the validation theorem applied to the single valid custom
tag `artist=Test Artist`. -/
theorem c7_create_tags_validation_witness :
    (∀ kv ∈ [((str "artist"), (str "Test Artist"))], ∀ c ∈ kv.1, c.toNat < 128) ∧
    ((create_tags (str "now") (str "host") (str "1.0")
        [((str "artist"), (str "Test Artist"))]).isOk = true ↔
      ∀ kv ∈ [((str "artist"), (str "Test Artist"))], kv.1.all nameCharOk = true ∧
        utf8Len kv.2 ≤ MAX_TAG_VALUE_LENGTH) :=
  ⟨by decide,
   (c7_create_tags_validation (str "now") (str "host") (str "1.0")
     [((str "artist"), (str "Test Artist"))] (by decide)).1⟩


end Cyberpunk.Tags
